import Mathlib

/-!
Verification of the Creator-OS agent pipeline and decision engine.

Shallow embedding of the Python sources:
  backend/app/agents/strategy_agent.py   (StrategyAgent._determine_verdict)
  backend/app/agents/memory.py           (AgentMemory.store / recall)
  backend/app/agents/agent_chain.py      (AgentChain, AgentRouter, ParallelAgentExecutor)
  backend/app/agents/orchestrator.py     (OrchestratorAgent.run / quick_analyze)
  backend/app/services/intelligence_service.py (IntelligenceService pattern detectors)

Conventions: async agent functions are modelled as pure values describing the
outcome of awaiting them (`Except String ω`: `ok` = returned dict, `error` =
raised exception rendered by `str(e)`); Python dicts keyed by strings are
modelled as `String → Option _` or insertion-ordered association lists;
numeric engagement statistics are exact rationals.
-/

namespace CreatorOS

/-! ## StrategyAgent._determine_verdict (strategy_agent.py lines 146-156) -/

/-- Embedding of `StrategyAgent._determine_verdict(score, warnings)`:

    if score >= 70 and len(warnings) == 0: return "Post"
    elif score >= 50 or len(warnings) <= 1: return "Post with tweaks"
    elif score >= 30: return "Fix before posting"
    else: return "Reconsider"
-/
def determineVerdict (score : Int) (warnings : List String) : String :=
  if 70 ≤ score ∧ warnings.length = 0 then "Post"
  else if 50 ≤ score ∨ warnings.length ≤ 1 then "Post with tweaks"
  else if 30 ≤ score then "Fix before posting"
  else "Reconsider"

/-! ## AgentMemory (memory.py)

`AgentMemory._short_term` is a dict from user id to a list of entries, trimmed
to the last `_max_short_term = 50` entries after each append.  The long-term
database path is a placeholder in the source (`_persist_to_db` only logs,
`_fetch_from_db` returns `[]`), so the map models the whole observable state.
The entry payload (observation / decision / context summary dicts) is opaque
to store/recall, so it is a type parameter `ε`. -/

/-- Capacity of the per-user short-term buffer (`self._max_short_term = 50`). -/
def maxShortTerm : Nat := 50

/-- One append to a per-user buffer: `append` then, when the length exceeds
the capacity, keep the last `maxShortTerm` entries
(`self._short_term[user_id] = self._short_term[user_id][-self._max_short_term:]`). -/
def storeList {ε : Type} (buf : List ε) (e : ε) : List ε :=
  let l := buf ++ [e]
  if maxShortTerm < l.length then l.drop (l.length - maxShortTerm) else l

/-- The short-term memory state: user id to stored list (absent key = user
never stored, Python `user_id not in self._short_term`). -/
def MemState (ε : Type) : Type := String → Option (List ε)

/-- The fresh memory state: `self._short_term = dict()`. -/
def memEmpty {ε : Type} : MemState ε := fun _ => none

/-- Embedding of `AgentMemory.store` restricted to the short-term path (the
database write is a logging placeholder in the source): initialise the user
slot to `[]` when missing, append the entry, trim to capacity. -/
def memStore {ε : Type} (m : MemState ε) (userId : String) (e : ε) : MemState ε :=
  fun u => if u = userId then some (storeList ((m userId).getD []) e) else m u

/-- Embedding of `AgentMemory.recall`: when the user has a short-term slot,
return `list[-limit:]` (for `limit = 0` the Python slice is the whole list);
otherwise fall back to `_fetch_from_db`, which returns `[]` in the source. -/
def memRecall {ε : Type} (m : MemState ε) (userId : String) (limit : Nat) : List ε :=
  match m userId with
  | some l => if limit = 0 then l else l.drop (l.length - limit)
  | none => []

/-- The last `n` elements of a list, in order (`l[-n:]` for `n > 0`). -/
def takeLast {ε : Type} (n : Nat) (l : List ε) : List ε :=
  l.drop (l.length - n)

/-! ## AgentChain (agent_chain.py lines 15-152)

A step's agent function is async and called once per retry attempt with the
(unchanged) accumulated context; `_execute_step` turns a timeout and a raised
exception alike into the step's last error.  The outcomes of the successive
attempts are modelled as a context-dependent list `attempts ctx` of
`Except String ω` (one element per loop iteration of
`for attempt in range(step.retry_count)`), and `_execute_step` returns the
first success, else the last error.  Context values are either a step output
(`context[step.name]`, `context["_last_output"]`) or a step name
(`context["_last_step"]`). -/

/-- A value stored in the shared chain context. -/
inductive CtxVal (ω : Type) where
  | out (o : ω)
  | name (s : String)
deriving DecidableEq

/-- The accumulated shared context dict. -/
def Ctx (ω : Type) : Type := String → Option (CtxVal ω)

/-- Update one key of the context (`context[k] = v`). -/
def ctxSet {ω : Type} (c : Ctx ω) (k : String) (v : CtxVal ω) : Ctx ω :=
  fun k' => if k' = k then some v else c k'

/-- Embedding of `ChainStep`: `attempts ctx` lists the outcome of each
successive `await asyncio.wait_for(step.agent_fn(context), ...)` call (its
length is the step's `retry_count`); `transform` is `transform_output`. -/
structure ChainStep (ω : Type) where
  name : String
  attempts : Ctx ω → List (Except String ω)
  required : Bool
  transform : Option (ω → ω)

/-- The retry loop of `_execute_step`: return on the first successful attempt,
otherwise keep the last error; an empty attempt list (retry_count 0) leaves
`last_error = None`, rendered as the string "None". -/
def runAttempts {ω : Type} (lastErr : Option String) :
    List (Except String ω) → Except String ω
  | [] => .error (lastErr.getD "None")
  | .ok o :: _ => .ok o
  | .error e :: rest => runAttempts (some e) rest

/-- Embedding of `AgentChain._execute_step`: the step result is
`ok output` for the dict with success True, `error e` for success False. -/
def executeStep {ω : Type} (s : ChainStep ω) (ctx : Ctx ω) : Except String ω :=
  runAttempts none (s.attempts ctx)

/-- One element of `ChainResult.step_results`:
the dict with keys step / success / output. -/
structure StepRecord (ω : Type) where
  step : String
  success : Bool
  output : Except String ω

/-- Embedding of `ChainResult`. `execution_time_ms` (wall-clock) is not
modelled. -/
structure ChainResult (ω : Type) where
  success : Bool
  finalOutput : Ctx ω
  stepResults : List (StepRecord ω)
  errors : List String

/-- The error message appended on a failing step:
the f-string rendering of Step ... failed with the step's last error. -/
def stepFailMsg (name err : String) : String :=
  "Step \x27" ++ name ++ "\x27 failed: " ++ err

/-- Apply the optional `transform_output` of a step to its output. -/
def applyTransform {ω : Type} (t : Option (ω → ω)) (o : ω) : ω :=
  match t with
  | some f => f o
  | none => o

/-- The context update a successful step performs:
`context[step.name] = output; context["_last_step"] = step.name;
context["_last_output"] = output` with the (optionally transformed) output. -/
def mergeCtx {ω : Type} (ctx : Ctx ω) (s : ChainStep ω) (o : ω) : Ctx ω :=
  let out := applyTransform s.transform o
  ctxSet (ctxSet (ctxSet ctx s.name (.out out)) "_last_step" (.name s.name))
    "_last_output" (.out out)

/-- Embedding of the loop body of `AgentChain.run`: execute the steps in
order, threading the accumulated context; on a failing step record the error
and halt iff the step is required and the caller passed stop_on_error; on a
successful step merge the (optionally transformed) output into the context
under the step's name and update _last_step and _last_output. -/
def chainRun {ω : Type} :
    List (ChainStep ω) → Ctx ω → Bool → ChainResult ω
  | [], ctx, _ => ⟨true, ctx, [], []⟩
  | s :: rest, ctx, stopOnError =>
    match executeStep s ctx with
    | .ok o₀ =>
      let r := chainRun rest (mergeCtx ctx s o₀) stopOnError
      ⟨r.success, r.finalOutput, ⟨s.name, true, .ok o₀⟩ :: r.stepResults, r.errors⟩
    | .error e =>
      if s.required && stopOnError then
        ⟨false, ctx, [⟨s.name, false, .error e⟩], [stepFailMsg s.name e]⟩
      else
        let r := chainRun rest ctx stopOnError
        ⟨r.success, r.finalOutput, ⟨s.name, false, .error e⟩ :: r.stepResults,
          stepFailMsg s.name e :: r.errors⟩

/-! ## ParallelAgentExecutor (agent_chain.py lines 230-303)

`run` builds one `execute_agent` wrapper task per added agent, runs them all
under `asyncio.wait_for(asyncio.gather(..., return_exceptions=True),
timeout=timeout_seconds)`, and combines the outcomes.  Each wrapper catches
`Exception` itself, so the gather list never holds an exception object and
the `isinstance(r, Exception)` arm of the combine loop is unreachable.
Timing: the wrappers run concurrently, each branch completing after its own
duration; `gather` completes when the slowest branch does, and `wait_for`
raises `asyncio.TimeoutError` to the caller when that exceeds the overall
timeout.  A branch is modelled by its name, its completion duration, the
outcome of awaiting its agent function, and its (unused) weight. -/

/-- One added agent of a `ParallelAgentExecutor` (the dict built by `add`),
together with the outcome and completion time of awaiting `agent["fn"](context)`. -/
structure ParAgent (ω : Type) where
  name : String
  behavior : Except String ω
  duration : Nat
  weight : ℚ

/-- The dict returned by the `execute_agent` wrapper. -/
structure AgentOutcome (ω : Type) where
  name : String
  success : Bool
  result : Option ω
  error : Option String
  weight : ℚ

/-- Embedding of `execute_agent`: the wrapper never raises — a raised agent
error is caught and returned as a success False dict. -/
def executeAgent {ω : Type} (a : ParAgent ω) : AgentOutcome ω :=
  match a.behavior with
  | .ok r => ⟨a.name, true, some r, none, a.weight⟩
  | .error e => ⟨a.name, false, none, some e, a.weight⟩

/-- Python dict assignment `d[k] = v` on an insertion-ordered association
list: overwrite in place when the key exists, else append. -/
def dictInsert {ω : Type} : List (String × ω) → String → ω → List (String × ω)
  | [], k, v => [(k, v)]
  | (k', v') :: rest, k, v =>
    if k' = k then (k', v) :: rest else (k', v') :: dictInsert rest k v

/-- The combine loop of `ParallelAgentExecutor.run`, walking the gathered
outcomes in order: a success inserts its result into the results dict under
the agent name, a failure appends the tagged message
`name: error` to the error list.  (A wrapper outcome with success True always
carries a result, so the `none` arm is unreachable through `executeAgent`;
the `isinstance(r, Exception)` arm of the source is likewise unreachable
because the wrapper catches exceptions.) -/
def combineLoop {ω : Type} (acc : List (String × ω) × List String) :
    List (AgentOutcome ω) → List (String × ω) × List String
  | [] => acc
  | r :: rest =>
    if r.success then
      match r.result with
      | some v => combineLoop (dictInsert acc.1 r.name v, acc.2) rest
      | none => combineLoop acc rest
    else
      combineLoop
        (acc.1, acc.2 ++ [r.name ++ ": " ++ (r.error.getD "Unknown error")]) rest

/-- The combine phase of `ParallelAgentExecutor.run`, starting from the empty
results dict and error list. -/
def combineOutcomes {ω : Type} (outcomes : List (AgentOutcome ω)) :
    List (String × ω) × List String :=
  combineLoop ([], []) outcomes

/-- Whether awaiting an agent function returns rather than raises. -/
def behOk {ω : Type} (a : ParAgent ω) : Bool :=
  match a.behavior with
  | .ok _ => true
  | .error _ => false

/-- The error string of a raising agent function (empty for a returning one). -/
def behErr {ω : Type} (a : ParAgent ω) : String :=
  match a.behavior with
  | .ok _ => ""
  | .error e => e

/-- The dict returned by `ParallelAgentExecutor.run` on completion. -/
structure ParallelResult (ω : Type) where
  success : Bool
  results : List (String × ω)
  errors : List String
  agentsRun : Nat
  agentsSucceeded : Nat

/-- Embedding of `ParallelAgentExecutor.run` with overall timeout
`timeout_seconds`: when every branch completes within the timeout the
combined dict is returned; otherwise `asyncio.wait_for` raises
`asyncio.TimeoutError` to the caller (`error` case) and nothing — including
the branches that did complete — is returned. -/
def parallelRun {ω : Type} (agents : List (ParAgent ω)) (timeout : Nat) :
    Except String (ParallelResult ω) :=
  if agents.all (fun a => a.duration ≤ timeout) then
    let outcomes := agents.map executeAgent
    let (res, errs) := combineOutcomes outcomes
    .ok ⟨errs.isEmpty, res, errs, agents.length, res.length⟩
  else
    .error "TimeoutError"

/-! ## AgentRouter (agent_chain.py lines 155-227)

`register` lowercases the keywords and stores the agent under its name in the
`routes` dict (insertion-ordered; re-registering a name overwrites in place).
`detect_intent` scores every registered route by the number of its keywords
occurring as substrings of the lowercased query, keeps the routes with
positive score, stable-sorts them by (score, priority) descending and returns
the first name — the earliest-registered route among those with the
lexicographically greatest (score, priority).  `route` dispatches on the
detected intent.  An agent function is modelled by what awaiting
`fn(query, context)` returns, abstract in the response type `ω` and context
type `γ`. -/

/-- One entry of the router's `routes` dict. -/
structure Route (γ ω : Type) where
  name : String
  keywords : List String
  priority : Int
  fn : String → γ → ω

/-- Python `str.lower()` (for the ASCII range, as the queries and keywords
here are): lowercase every character of the string. -/
def strLower (s : String) : String :=
  ⟨s.data.map Char.toLower⟩

/-- Embedding of `AgentRouter.register`: keywords are lowercased at
registration; the dict assignment overwrites an existing entry of the same
name in place, else appends. -/
def registerRoute {γ ω : Type} (routes : List (Route γ ω))
    (name : String) (fn : String → γ → ω) (keywords : List String)
    (priority : Int) : List (Route γ ω) :=
  let entry : Route γ ω := ⟨name, keywords.map strLower, priority, fn⟩
  match routes with
  | [] => [entry]
  | r :: rest =>
    if r.name = name then entry :: rest
    else r :: registerRoute rest name fn keywords priority

/-- Contiguous-substring test on character lists: the needle is a prefix of
some suffix of the haystack. -/
def isSubstr (needle : List Char) : List Char → Bool
  | [] => needle.isEmpty
  | h :: t => needle.isPrefixOf (h :: t) || isSubstr needle t

/-- Python `needle in haystack` on strings (the haystack is already
lowercased by the caller). -/
def substrOf (needle haystack : String) : Bool :=
  isSubstr needle.data haystack.data

/-- The score of one route against the lowercased query:
`sum(1 for kw in route["keywords"] if kw in query_lower)`. -/
def routeScore {γ ω : Type} (queryLower : String) (r : Route γ ω) : Nat :=
  r.keywords.countP (fun kw => substrOf kw queryLower)

/-- Strict lexicographic comparison on (score, priority), the order in which
`matches.sort(key=lambda x: (x[1], x[2]), reverse=True)` ranks candidates. -/
def scoreLt (a b : Nat × Int) : Prop :=
  a.1 < b.1 ∨ (a.1 = b.1 ∧ a.2 < b.2)

instance (a b : Nat × Int) : Decidable (scoreLt a b) := by
  unfold scoreLt; infer_instance

/-- The first element of the descending stable sort of the matches: scan left
to right keeping the current best, replacing it only on a strictly greater
(score, priority) key. -/
def pickBest : List (String × Nat × Int) → Option (String × Nat × Int)
  | [] => none
  | m :: rest =>
    some (rest.foldl (fun best x => if scoreLt best.2 x.2 then x else best) m)

/-- Embedding of `AgentRouter.detect_intent`: the name of the best
positive-score route, or the sentinel "default" when nothing matches. -/
def detectIntent {γ ω : Type} (routes : List (Route γ ω)) (query : String) :
    String :=
  let q := strLower query
  let cands := routes.filterMap fun r =>
    let s := routeScore q r
    if 0 < s then some (r.name, s, r.priority) else none
  match pickBest cands with
  | some m => m.1
  | none => "default"

/-- What `AgentRouter.route` returns: the dispatched agent's response, or the
no-matching-agent error dict (carrying the detected intent). -/
inductive Routed (ω : Type) where
  | result (r : ω)
  | noMatch (detectedIntent : String)
deriving DecidableEq

/-- Embedding of `AgentRouter.route`: detect the intent; dispatch to the
default agent when the intent is the sentinel "default" and a default is
configured; else dispatch to the route registered under the intent; else
return the error dict. -/
def routeQuery {γ ω : Type} (routes : List (Route γ ω))
    (defaultAgent : Option (String → γ → ω)) (query : String) (context : γ) :
    Routed ω :=
  let intent := detectIntent routes query
  if intent = "default" ∧ defaultAgent.isSome then
    match defaultAgent with
    | some d => .result (d query context)
    | none => .noMatch intent
  else
    match routes.find? (fun r => r.name = intent) with
    | some r => .result (r.fn query context)
    | none => .noMatch intent

/-! ## IntelligenceService pattern detectors (intelligence_service.py)

Engagement counts (`likes + comments + shares`) and their means are exact
rationals; `statistics.mean` is modelled as `sum / length`.  `round(x, 2)` is
modelled as rounding `100 * x` to the nearest integer (Python rounds the
nearest binary double, which agrees away from representation-boundary ties).
Grouping by a `defaultdict` preserves first-occurrence key order; Python
`max(..., key=...)` keeps the first element among ties.  Of each emitted
`ContentPattern` row the fields the claims speak about are modelled:
pattern type, platform, confidence score, sample size and performance
multiplier (the `pattern_data` payload, user id, analysis window and the
f-string `explanation` are carried verbatim from the already-modelled fields
and are omitted). -/

/-- Mean of a list of rationals (`statistics.mean`); callers guard against
the empty list exactly where the source does. -/
def qmean (l : List ℚ) : ℚ := l.sum / l.length

/-- Python `round(x, 2)`: round to two decimal places. -/
def round2 (x : ℚ) : ℚ := (round (100 * x) : ℤ) / 100

/-- Keys of a defaultdict in first-occurrence order. -/
def firstOccur {α : Type} [DecidableEq α] (l : List α) : List α :=
  l.foldl (fun acc p => if p ∈ acc then acc else acc ++ [p]) []

/-- The modelled fields of an emitted `ContentPattern` row. -/
structure Pattern where
  patternType : String
  platform : String
  confidence : ℚ
  sampleSize : Nat
  multiplier : ℚ
deriving DecidableEq

/-- One item of `content_data` as consumed by the detectors: its platform,
engagement count, caption text, the two boolean outcomes of the content-type
classification probes — whether `ai_analysis.get("visual_score")` is truthy,
and whether `ai_analysis.get("feedback")` is truthy with some feedback entry
containing "face" (case-insensitively) — and its creation timestamp as the
posting-time detector consumes it: `created_at.hour` and the lowercased
`strftime("%A")` weekday name.  `ContentDraft.created_at` is a non-nullable
`datetime` column (`Field(default_factory=datetime.utcnow)`), and datetime
objects are always truthy, so the detector's `if created_at:` guard passes
for every item and each item carries an hour and a weekday. -/
structure ContentItem where
  platform : String
  engagement : ℚ
  text : String
  hasVisualScore : Bool
  feedbackMentionsFace : Bool
  hour : Nat
  day : String

/-- The content-type classification of `detect_content_type_patterns`. -/
def contentTypeOf (i : ContentItem) : String :=
  if i.hasVisualScore then
    if i.feedbackMentionsFace then "with_face" else "with_visual"
  else "text_only"

/-- Embedding of `IntelligenceService.detect_content_type_patterns`: group
engagements by content type, and for each group of at least 2 samples whose
mean over `max(overall_avg, 1)` rounds outside (0.8, 1.2) emit a pattern with
confidence `min(len(engagements) / 10, 1.0)` and the group size as sample
size. -/
def detectContentTypePatterns (data : List ContentItem) : List Pattern :=
  match data with
  | [] => []
  | _ =>
    let overallAvg := qmean (data.map (·.engagement))
    let groups := firstOccur (data.map contentTypeOf)
    groups.filterMap fun g =>
      let engs := (data.filter (fun i => contentTypeOf i = g)).map (·.engagement)
      if 2 ≤ engs.length then
        let mult := round2 (qmean engs / max overallAvg 1)
        if 6/5 < mult ∨ mult < 4/5 then
          some ⟨"content_type", "all", min ((engs.length : ℚ) / 10) 1,
            engs.length, mult⟩
        else none
      else none

/-- Caption length bucket of `detect_caption_patterns`. -/
def lengthClass (text : String) : String :=
  if text.length ≤ 100 then "length_short"
  else if text.length ≤ 280 then "length_medium"
  else "length_long"

/-- The emoji regex probe: some character in the four scanned ranges. -/
def hasEmoji (text : String) : Bool :=
  text.toList.any fun c =>
    (0x1F600 ≤ c.toNat ∧ c.toNat ≤ 0x1F64F) ∨
    (0x1F300 ≤ c.toNat ∧ c.toNat ≤ 0x1F5FF) ∨
    (0x1F680 ≤ c.toNat ∧ c.toNat ≤ 0x1F6FF) ∨
    (0x1F1E0 ≤ c.toNat ∧ c.toNat ≤ 0x1F1FF)

/-- The caption groups one item contributes to, in the order the loop body
appends them: its length bucket, with_emoji or no_emoji, and with_question
when the text contains a question mark.  (`has_hashtags` is computed in the
source but never used for grouping.) -/
def captionGroupsOf (i : ContentItem) : List String :=
  [lengthClass i.text]
    ++ [if hasEmoji i.text then "with_emoji" else "no_emoji"]
    ++ (if i.text.toList.contains (Char.ofNat 63) then ["with_question"] else [])

/-- Embedding of `IntelligenceService.detect_caption_patterns`: group
engagements by caption style, and for each group of at least 2 samples whose
mean over `max(overall_avg, 1)` rounds outside [0.7, 1.3] emit a pattern with
confidence `min(len(engagements) / 8, 1.0)` and the group size as sample
size. -/
def detectCaptionPatterns (data : List ContentItem) : List Pattern :=
  match data with
  | [] => []
  | _ =>
    let overallAvg := qmean (data.map (·.engagement))
    let groups := firstOccur (data.map captionGroupsOf).flatten
    groups.filterMap fun g =>
      let engs :=
        (data.filter (fun i => g ∈ captionGroupsOf i)).map (·.engagement)
      if 2 ≤ engs.length then
        let mult := round2 (qmean engs / max overallAvg 1)
        if 13/10 < mult ∨ mult < 7/10 then
          some ⟨"caption_structure", "all", min ((engs.length : ℚ) / 8) 1,
            engs.length, mult⟩
        else none
      else none

/-- The engagements of one platform, in order. -/
def platformSamples (data : List ContentItem) (p : String) : List ℚ :=
  (data.filter (fun i => i.platform = p)).map (·.engagement)

/-- Python `max(items, key=value)` over an association list — and equally the
first element of `sorted(items, key=value, reverse=True)`, a stable sort:
the first entry with the greatest value. -/
def maxBySnd {α : Type} (l : List (α × ℚ)) : Option (α × ℚ) :=
  match l with
  | [] => none
  | m :: rest => some (rest.foldl (fun best x => if best.2 < x.2 then x else best) m)

/-- Embedding of `IntelligenceService.detect_platform_patterns`: when fewer
than 2 distinct platforms occur, emit nothing; otherwise compute the mean
engagement of every platform with at least 2 samples, and when any such
platform exists emit one pattern for the best of them, with multiplier
`round(best_mean / max(overall_avg, 1), 2)`, confidence
`min(len(content_data) / 15, 1.0)` and the whole data size as sample size. -/
def detectPlatformPatterns (data : List ContentItem) : List Pattern :=
  let platforms := firstOccur (data.map (·.platform))
  if platforms.length < 2 then []
  else
    let overallAvg := qmean (data.map (·.engagement))
    let avgs := platforms.filterMap fun p =>
      let engs := platformSamples data p
      if 2 ≤ engs.length then some (p, qmean engs) else none
    match maxBySnd avgs with
    | none => []
    | some best =>
      [⟨"platform_performance", best.1, min ((data.length : ℚ) / 15) 1,
        data.length, round2 (best.2 / max overallAvg 1)⟩]

/-- Embedding of `IntelligenceService.detect_posting_time_patterns`: group
engagements by hour of day and by weekday (every item contributes, the
created_at column being non-nullable); for each grouping compute the mean of
every group with at least 2 samples; when any qualify, take the group with
the greatest mean (the head of the stable descending sort, Python keeping the
first among ties) and, when its mean over `max(overall_avg, 1)` rounds above
1.2, emit a pattern — for hours with confidence
`min(sum of all hour-group sizes / 20, 1.0)`, for weekdays with confidence
`min(sum of all day-group sizes / 15, 1.0)`, both with `len(content_data)` as
sample size.  The hour pattern is appended before the day pattern. -/
def detectPostingTimePatterns (data : List ContentItem) : List Pattern :=
  let overallAvg := qmean (data.map (fun i => i.engagement))
  let hourPats : List Pattern :=
    match maxBySnd ((firstOccur (data.map (fun i => i.hour))).filterMap fun h =>
        let engs := (data.filter (fun i => i.hour = h)).map (fun i => i.engagement)
        if 2 ≤ engs.length then some (h, qmean engs) else none) with
    | none => []
    | some top =>
      let mult := round2 (top.2 / max overallAvg 1)
      if 6/5 < mult then
        [⟨"posting_time", "all",
          min ((((firstOccur (data.map (fun i => i.hour))).map
              (fun h => (data.filter (fun i => i.hour = h)).length)).sum : ℚ) / 20) 1,
          data.length, mult⟩]
      else []
  let dayPats : List Pattern :=
    match maxBySnd ((firstOccur (data.map (fun i => i.day))).filterMap fun d =>
        let engs := (data.filter (fun i => i.day = d)).map (fun i => i.engagement)
        if 2 ≤ engs.length then some (d, qmean engs) else none) with
    | none => []
    | some top =>
      let mult := round2 (top.2 / max overallAvg 1)
      if 6/5 < mult then
        [⟨"posting_day", "all",
          min ((((firstOccur (data.map (fun i => i.day))).map
              (fun d => (data.filter (fun i => i.day = d)).length)).sum : ℚ) / 15) 1,
          data.length, mult⟩]
      else []
  hourPats ++ dayPats

/-- The gate `std_dev > avg_eng * 0.5` of the velocity detector, expressed
without the square root: `statistics.stdev` is the square root of the sample
variance, so for a nonnegative threshold the comparison is
variance > threshold², and for a negative threshold it always holds (a
standard deviation is nonnegative).  `stdevGtHalfAvg_iff_sqrt` below proves
this encoding equal to the real-number comparison. -/
def stdevGtHalfAvg (var avg : ℚ) : Bool :=
  if 0 ≤ avg * (1/2) then decide ((avg * (1/2)) ^ 2 < var) else true

/-- Embedding of `IntelligenceService.detect_velocity_patterns`: with fewer
than 5 items nothing is emitted; otherwise, when the sample standard
deviation of the engagements exceeds half their mean, one pattern is emitted
with confidence `min(len(engagements) / 10, 1.0)` and `len(engagements)` as
sample size.  The source's `performance_multiplier`,
`round((avg_eng + std_dev) / max(avg_eng, 1), 2)`, contains the irrational
standard deviation itself and so has no exact rational value; it is taken as
the parameter `mult`, which the claims under verification do not constrain. -/
def detectVelocityPatterns (data : List ContentItem) (mult : ℚ) : List Pattern :=
  if data.length < 5 then []
  else
    let engagements := data.map (fun i => i.engagement)
    if engagements.isEmpty then []
    else
      let avgEng := qmean engagements
      let sampleVar :=
        if 1 < engagements.length then
          (engagements.map (fun x => (x - avgEng) ^ 2)).sum
            / ((engagements.length : ℚ) - 1)
        else 0
      if stdevGtHalfAvg sampleVar avgEng then
        [⟨"engagement_velocity", "all", min ((engagements.length : ℚ) / 10) 1,
          engagements.length, mult⟩]
      else []

/-! ## OrchestratorAgent (orchestrator.py)

The orchestrator invokes the vision capability when the context has an image
and the content capability when it has text.  A capability invocation is
modelled by the outcome of awaiting it (`Except String ω`); the collaborators
the claims do not constrain — `strategy.decide`, the analytics history fetch
and the memory patterns summary — are parameters (`decide`, `history`),
faithful to the source calling out to those agents.  `run` (lines 52-70)
wraps each invocation in try/except and records a failure as the observation
dict with analyzed False and the error string; `quick_analyze`
(lines 110-134) performs the same invocations without any try/except, so an
exception propagates to its caller (modelled by `Except`). -/

/-- An observation as stored under "vision" or "content": the dict the
capability returned (analyzed), or the analyzed False / error dict the
orchestrator builds from a caught exception. -/
inductive ObsVal (ω : Type) where
  | analyzed (data : ω)
  | failed (error : String)
deriving DecidableEq

/-- The request context as the orchestrator probes it: `ctx.has_image()`,
`ctx.has_text()`, the platform, and the outcomes of awaiting
`vision.analyze(ctx)` and `content.analyze(ctx)`. -/
structure OrchCtx (ω : Type) where
  userId : String
  platform : Option String
  hasImage : Bool
  hasText : Bool
  visionBeh : Except String ω
  contentBeh : Except String ω

/-- The response of the full pipeline: status, the observations map, and the
decision produced by the strategy agent. -/
structure OrchResponse (ω δ : Type) where
  status : String
  obsVision : Option (ObsVal ω)
  obsContent : Option (ObsVal ω)
  decision : δ

/-- Embedding of `OrchestratorAgent.run`: each capability invocation is
guarded by try/except, a raised error becoming the analyzed False
observation; the strategy decision is always produced and the response always
returned (`decide` and `history` model the strategy and analytics
collaborators; the memory write is a side effect that does not alter the
response fields modelled here). -/
def orchRun {ω δ η : Type}
    (decide : Option (ObsVal ω) → Option (ObsVal ω) → η → Option String → δ)
    (history : η) (ctx : OrchCtx ω) : OrchResponse ω δ :=
  let v : Option (ObsVal ω) :=
    if ctx.hasImage then
      some (match ctx.visionBeh with
        | .ok d => .analyzed d
        | .error e => .failed e)
    else none
  let c : Option (ObsVal ω) :=
    if ctx.hasText then
      some (match ctx.contentBeh with
        | .ok d => .analyzed d
        | .error e => .failed e)
    else none
  ⟨"success", v, c, decide v c history ctx.platform⟩

/-- Embedding of `OrchestratorAgent.quick_analyze`: the same two capability
invocations with no try/except — a raised error aborts the call and
propagates to the caller — and a decision over a no-history summary
(`noHistory` models the literal has_data False dict). -/
def orchQuickAnalyze {ω δ η : Type}
    (decide : Option (ObsVal ω) → Option (ObsVal ω) → η → Option String → δ)
    (noHistory : η) (ctx : OrchCtx ω) : Except String (String × δ) := do
  let v : Option (ObsVal ω) ←
    if ctx.hasImage then
      match ctx.visionBeh with
      | .ok d => pure (some (.analyzed d))
      | .error e => throw e
    else pure none
  let c : Option (ObsVal ω) ←
    if ctx.hasText then
      match ctx.contentBeh with
      | .ok d => pure (some (.analyzed d))
      | .error e => throw e
    else pure none
  pure ("success", decide v c noHistory ctx.platform)

/-! ## Helper lemmas -/

theorem takeLast_eq_self {ε : Type} {n : Nat} {l : List ε} (h : l.length ≤ n) :
    takeLast n l = l := by
  unfold takeLast
  rw [Nat.sub_eq_zero_of_le h, List.drop_zero]

theorem length_takeLast {ε : Type} (n : Nat) (l : List ε) :
    (takeLast n l).length = min n l.length := by
  unfold takeLast
  rw [List.length_drop]
  omega

theorem storeList_eq_takeLast {ε : Type} (buf : List ε) (e : ε) :
    storeList buf e = takeLast maxShortTerm (buf ++ [e]) := by
  simp only [storeList, takeLast]
  split
  · rfl
  · rename_i h
    rw [Nat.sub_eq_zero_of_le (by omega), List.drop_zero]

theorem takeLast_append_takeLast {ε : Type} (n : Nat) (l l' : List ε) :
    takeLast n (takeLast n l ++ l') = takeLast n (l ++ l') := by
  unfold takeLast
  rw [← List.drop_append_of_le_length (by omega : l.length - n ≤ l.length),
    List.drop_drop]
  congr 1
  simp only [List.length_drop, List.length_append]
  omega

theorem foldl_storeList {ε : Type} (es : List ε) (buf : List ε)
    (h : buf.length ≤ maxShortTerm) :
    es.foldl storeList buf = takeLast maxShortTerm (buf ++ es) := by
  induction es generalizing buf with
  | nil =>
    rw [List.foldl_nil, List.append_nil, takeLast_eq_self h]
  | cons e es ih =>
    rw [List.foldl_cons, ih (storeList buf e)
      (by rw [storeList_eq_takeLast, length_takeLast]; omega)]
    rw [storeList_eq_takeLast, takeLast_append_takeLast]
    simp [List.append_assoc]

theorem foldl_memStore {ε : Type} (es : List ε) (m : MemState ε) (userId : String)
    (h : es ≠ []) :
    (es.foldl (fun st e => memStore st userId e) m) userId
      = some (es.foldl storeList ((m userId).getD [])) := by
  induction es generalizing m with
  | nil => exact absurd rfl h
  | cons e es ih =>
    cases es with
    | nil => simp [memStore]
    | cons e₂ es₂ =>
      rw [List.foldl_cons, ih (memStore m userId e) (by simp)]
      simp [memStore]

/-! ## Claims -/

/-- C1, counterexample: the claim asserts that for every warnings list a
score of 29 yields the verdict Reconsider, but on the code a score of 29
with an empty warnings list falls into the second branch
(`score >= 50 or len(warnings) <= 1`) and yields Post with tweaks. -/
theorem c1_counterexample :
    determineVerdict 29 [] = "Post with tweaks" ∧
    determineVerdict 29 [] ≠ "Reconsider" := by
  constructor <;> decide

/-- C1 (amended): the verdict is the four-tier threshold mapping on
(score, warnings): score ≥70 with no warnings yields Post; else score ≥50 or
at most one warning yields Post with tweaks; else score ≥30 yields Fix before
posting; else Reconsider.  Consequently score=29 yields Reconsider and
score=30 yields Fix before posting for every warnings list with at least two
warnings (with at most one warning both scores yield Post with tweaks), and
score=70 yields Post with zero warnings and Post with tweaks with one
warning. -/
theorem c1_verdict_tiers (score : Int) (warnings : List String) :
    (70 ≤ score ∧ warnings.length = 0 →
      determineVerdict score warnings = "Post") ∧
    (¬(70 ≤ score ∧ warnings.length = 0) →
      (50 ≤ score ∨ warnings.length ≤ 1) →
      determineVerdict score warnings = "Post with tweaks") ∧
    (¬(70 ≤ score ∧ warnings.length = 0) →
      ¬(50 ≤ score ∨ warnings.length ≤ 1) → 30 ≤ score →
      determineVerdict score warnings = "Fix before posting") ∧
    (score < 30 → ¬(50 ≤ score ∨ warnings.length ≤ 1) →
      determineVerdict score warnings = "Reconsider") ∧
    (2 ≤ warnings.length → determineVerdict 29 warnings = "Reconsider") ∧
    (2 ≤ warnings.length → determineVerdict 30 warnings = "Fix before posting") ∧
    (warnings.length ≤ 1 → determineVerdict 29 warnings = "Post with tweaks") ∧
    determineVerdict 70 [] = "Post" ∧
    (∀ w : String, determineVerdict 70 [w] = "Post with tweaks") := by
  refine ⟨?_, ?_, ?_, ?_, ?_, ?_, ?_, by decide, ?_⟩
  · intro h
    unfold determineVerdict
    rw [if_pos h]
  · intro h1 h2
    unfold determineVerdict
    rw [if_neg h1, if_pos h2]
  · intro h1 h2 h3
    unfold determineVerdict
    rw [if_neg h1, if_neg h2, if_pos h3]
  · intro h1 h2
    unfold determineVerdict
    rw [if_neg (by omega), if_neg h2, if_neg (by omega)]
  · intro h
    unfold determineVerdict
    rw [if_neg (by omega), if_neg (by omega), if_neg (by omega)]
  · intro h
    unfold determineVerdict
    rw [if_neg (by omega), if_neg (by omega), if_pos (by omega)]
  · intro h
    unfold determineVerdict
    rw [if_neg (by omega), if_pos (Or.inr h)]
  · intro w
    unfold determineVerdict
    rw [if_neg (by simp), if_pos (Or.inl (by norm_num))]

/-- C1 witness: the amended boundary facts evaluated at score 29 and 30 with
a concrete two-warning list and at score 29 with a concrete one-warning
list. -/
theorem c1_verdict_tiers_witness :
    determineVerdict 29 ["a", "b"] = "Reconsider" ∧
    determineVerdict 30 ["a", "b"] = "Fix before posting" ∧
    determineVerdict 29 ["a"] = "Post with tweaks" :=
  ⟨(c1_verdict_tiers 29 ["a", "b"]).2.2.2.2.1 (by decide),
   (c1_verdict_tiers 30 ["a", "b"]).2.2.2.2.2.1 (by decide),
   (c1_verdict_tiers 29 ["a"]).2.2.2.2.2.2.1 (by decide)⟩

/-- C9: the short-term memory store is a FIFO-evicted buffer of capacity 50:
after storing more than 50 entries for a user, the user's buffer holds
exactly the 50 most recently stored entries in insertion order (the oldest
entries are evicted), and recall with limit 50 returns exactly those 50
entries. -/
theorem c9_memory_fifo {ε : Type} (userId : String) (es : List ε)
    (h : 50 < es.length) :
    ((es.foldl (fun st e => memStore st userId e) memEmpty) userId
        = some (es.drop (es.length - 50))) ∧
    (memRecall (es.foldl (fun st e => memStore st userId e) memEmpty) userId 50
        = es.drop (es.length - 50)) ∧
    (es.drop (es.length - 50)).length = 50 := by
  have hne : es ≠ [] := by
    cases es with
    | nil => simp at h
    | cons a l => simp
  have hbuf := foldl_memStore es (memEmpty (ε := ε)) userId hne
  have hfold := foldl_storeList es [] (by simp [maxShortTerm])
  rw [List.nil_append] at hfold
  have hstore :
      (es.foldl (fun st e => memStore st userId e) memEmpty) userId
        = some (es.drop (es.length - 50)) := by
    rw [hbuf]
    simp only [memEmpty, Option.getD_none]
    rw [hfold]
    rfl
  refine ⟨hstore, ?_, by rw [List.length_drop]; omega⟩
  unfold memRecall
  rw [hstore]
  simp only [List.length_drop]
  have : es.length - (es.length - 50) - 50 = 0 := by omega
  rw [this, List.drop_zero]
  simp

/-- C9 witness: storing the 51 entries `0, …, 50` for one user leaves the 50
most recent (`1, …, 50`) in the buffer, and recall with limit 50 returns
them. -/
theorem c9_memory_fifo_witness :
    ((List.range 51).foldl (fun st e => memStore st "u" e) memEmpty) "u"
        = some ((List.range 51).drop ((List.range 51).length - 50)) ∧
    memRecall ((List.range 51).foldl (fun st e => memStore st "u" e) memEmpty)
        "u" 50
      = (List.range 51).drop ((List.range 51).length - 50) :=
  ⟨(c9_memory_fifo "u" (List.range 51) (by simp)).1,
   (c9_memory_fifo "u" (List.range 51) (by simp)).2.1⟩

/-- C3: with stop_on_error, a required step that fails after all its attempts
halts the chain immediately — the overall result has success false, the
failing step is the last entry of step_results (no subsequent step name
appears) and its message is the only error of the suffix; a failing step that
is not required, or any failing step when stop_on_error is off, has its error
appended to the error list and the chain continues with the next step. -/
theorem c3_chain_failure_policy {ω : Type} (s : ChainStep ω)
    (rest : List (ChainStep ω)) (ctx : Ctx ω) (stopOnError : Bool) (e : String)
    (hfail : executeStep s ctx = .error e) :
    (s.required = true → stopOnError = true →
      chainRun (s :: rest) ctx stopOnError =
        ⟨false, ctx, [⟨s.name, false, .error e⟩], [stepFailMsg s.name e]⟩) ∧
    (s.required = true → stopOnError = true →
      (chainRun (s :: rest) ctx stopOnError).success = false ∧
      (chainRun (s :: rest) ctx stopOnError).stepResults.map (·.step)
        = [s.name]) ∧
    (s.required = false ∨ stopOnError = false →
      chainRun (s :: rest) ctx stopOnError =
        { chainRun rest ctx stopOnError with
            stepResults := ⟨s.name, false, .error e⟩
              :: (chainRun rest ctx stopOnError).stepResults,
            errors := stepFailMsg s.name e
              :: (chainRun rest ctx stopOnError).errors }) := by
  have hhalt : ∀ (_ : s.required = true) (_ : stopOnError = true),
      chainRun (s :: rest) ctx stopOnError =
        ⟨false, ctx, [⟨s.name, false, .error e⟩], [stepFailMsg s.name e]⟩ := by
    intro hr hs
    simp only [chainRun, hfail, hr, hs, Bool.and_self, if_pos]
  refine ⟨hhalt, fun hr hs => by rw [hhalt hr hs]; exact ⟨rfl, rfl⟩, ?_⟩
  intro hro
  have hand : (s.required && stopOnError) = false := by
    rcases hro with h | h <;> simp [h]
  simp only [chainRun, hfail, hand, Bool.false_eq_true, if_false]

/-- C3 witness: a two-step chain whose first (required) step exhausts its
single attempt with an error, run with stop_on_error, halts with success
false and no record of the second step. -/
theorem c3_chain_failure_policy_witness :
    chainRun (ω := Nat)
        [⟨"first", fun _ => [.error "boom"], true, none⟩,
         ⟨"second", fun _ => [.ok 7], true, none⟩]
        (fun _ => none) true =
      ⟨false, fun _ => none, [⟨"first", false, .error "boom"⟩],
        [stepFailMsg "first" "boom"]⟩ :=
  (c3_chain_failure_policy
      ⟨"first", fun _ => [.error "boom"], true, none⟩
      [⟨"second", fun _ => [.ok 7], true, none⟩]
      (fun _ => none) true "boom" rfl).1 rfl rfl

/-- C10: a step that fails after all its attempts leaves the accumulated
shared context unchanged — in the halting case the final output is exactly
the context from before the step, and in the continuing case the remaining
steps run on exactly that context; only a successful step merges its
(optionally transformed) output into the context, writing its own name,
_last_step and _last_output and no other key. -/
theorem c10_failed_step_frame {ω : Type} (s : ChainStep ω)
    (rest : List (ChainStep ω)) (ctx : Ctx ω) (stopOnError : Bool) :
    (∀ e, executeStep s ctx = .error e →
      (((s.required && stopOnError) = true →
        (chainRun (s :: rest) ctx stopOnError).finalOutput = ctx) ∧
       ((s.required && stopOnError) = false →
        chainRun (s :: rest) ctx stopOnError =
          { chainRun rest ctx stopOnError with
              stepResults := ⟨s.name, false, .error e⟩
                :: (chainRun rest ctx stopOnError).stepResults,
              errors := stepFailMsg s.name e
                :: (chainRun rest ctx stopOnError).errors }))) ∧
    (∀ o, executeStep s ctx = .ok o →
      chainRun (s :: rest) ctx stopOnError =
        { chainRun rest (mergeCtx ctx s o) stopOnError with
            stepResults := ⟨s.name, true, .ok o⟩
              :: (chainRun rest (mergeCtx ctx s o) stopOnError).stepResults }) ∧
    (∀ o k, k ≠ s.name → k ≠ "_last_step" → k ≠ "_last_output" →
      mergeCtx ctx s o k = ctx k) ∧
    (∀ o, s.name ≠ "_last_step" → s.name ≠ "_last_output" →
      mergeCtx ctx s o s.name = some (.out (applyTransform s.transform o))) ∧
    (∀ o, mergeCtx ctx s o "_last_step" = some (.name s.name)) ∧
    (∀ o, mergeCtx ctx s o "_last_output"
        = some (.out (applyTransform s.transform o))) := by
  refine ⟨fun e he => ⟨fun hand => ?_, fun hand => ?_⟩, fun o ho => ?_,
    fun o k hk1 hk2 hk3 => ?_, fun o h1 h2 => ?_, fun o => ?_, fun o => ?_⟩
  · simp only [chainRun, he, hand, if_pos]
  · simp only [chainRun, he, hand, Bool.false_eq_true, if_false]
  · simp only [chainRun, ho]
  · simp only [mergeCtx, ctxSet, if_neg hk1, if_neg hk2, if_neg hk3]
  · simp only [mergeCtx, ctxSet, if_neg h2, if_neg h1, if_pos rfl]
    simp
  · simp only [mergeCtx, ctxSet,
      if_neg (by decide : ("_last_step" : String) ≠ "_last_output"), if_pos rfl]
    simp
  · simp only [mergeCtx, ctxSet, if_pos rfl]
    simp

/-- C10 witness: a failing non-required step followed by a successful step —
the failing step leaves the context unchanged, so the final output holds the
second step's entry only. -/
theorem c10_failed_step_frame_witness :
    (chainRun (ω := Nat)
        [⟨"a", fun _ => [.error "x"], true, none⟩] (fun _ => none) true).finalOutput
      = (fun _ => none) :=
  ((c10_failed_step_frame (ω := Nat)
      ⟨"a", fun _ => [.error "x"], true, none⟩ [] (fun _ => none) true).1
    "x" rfl).1 rfl

theorem dictInsert_of_not_mem {ω : Type} (l : List (String × ω)) (k : String)
    (v : ω) (h : ∀ p ∈ l, p.1 ≠ k) : dictInsert l k v = l ++ [(k, v)] := by
  induction l with
  | nil => rfl
  | cons p rest ih =>
    rw [dictInsert, if_neg (h p (by simp)), ih fun q hq => h q (by simp [hq])]
    rfl

theorem combineLoop_spec {ω : Type} (agents : List (ParAgent ω))
    (res : List (String × ω)) (errs : List String)
    (hfresh : ∀ a ∈ agents, ∀ p ∈ res, p.1 ≠ a.name)
    (hnodup : (agents.map (fun a => a.name)).Nodup) :
    ((combineLoop (res, errs) (agents.map executeAgent)).1.map Prod.fst
        = res.map Prod.fst ++ (agents.filter behOk).map (fun a => a.name)) ∧
    ((combineLoop (res, errs) (agents.map executeAgent)).2
        = errs ++ (agents.filter (fun a => ! behOk a)).map
            (fun a => a.name ++ ": " ++ behErr a)) ∧
    (∀ p ∈ res, p ∈ (combineLoop (res, errs) (agents.map executeAgent)).1) ∧
    (∀ a ∈ agents, ∀ v, a.behavior = .ok v →
      (a.name, v) ∈ (combineLoop (res, errs) (agents.map executeAgent)).1) := by
  induction agents generalizing res errs with
  | nil => simp [combineLoop]
  | cons a rest ih =>
    have hnodup' : (rest.map (fun a => a.name)).Nodup :=
      (List.nodup_cons.mp hnodup).2
    have haname : a.name ∉ rest.map (fun a => a.name) :=
      (List.nodup_cons.mp hnodup).1
    cases hb : a.behavior with
    | ok v =>
      have step : combineLoop (res, errs) ((a :: rest).map executeAgent)
          = combineLoop (res ++ [(a.name, v)], errs) (rest.map executeAgent) := by
        simp only [List.map_cons, combineLoop, executeAgent, hb]
        rw [dictInsert_of_not_mem res a.name v
          (fun p hp => hfresh a (by simp) p hp), if_pos trivial]
      have hfresh' : ∀ b ∈ rest, ∀ p ∈ res ++ [(a.name, v)], p.1 ≠ b.name := by
        intro b hbmem p hp
        rcases List.mem_append.mp hp with hp | hp
        · exact hfresh b (by simp [hbmem]) p hp
        · simp only [List.mem_singleton] at hp
          subst hp
          simp only [ne_eq]
          intro hcontra
          apply haname
          rw [show a.name = b.name from hcontra]
          exact List.mem_map_of_mem (fun a => a.name) hbmem
      obtain ⟨ih1, ih2, ih3, ih4⟩ := ih (res ++ [(a.name, v)]) errs hfresh' hnodup'
      refine ⟨?_, ?_, ?_, ?_⟩
      · rw [step, ih1]
        simp [List.filter_cons, behOk, hb]
      · rw [step, ih2]
        simp [List.filter_cons, behOk, hb]
      · intro p hp
        rw [step]
        exact ih3 p (by simp [hp])
      · intro b hbmem v' hv'
        rw [step]
        rcases List.mem_cons.mp hbmem with hbeq | hbmem
        · subst hbeq
          rw [hb] at hv'
          injection hv' with hveq
          subst hveq
          exact ih3 _ (by simp)
        · exact ih4 b hbmem v' hv'
    | error e =>
      have step : combineLoop (res, errs) ((a :: rest).map executeAgent)
          = combineLoop (res, errs ++ [a.name ++ ": " ++ e]) (rest.map executeAgent) := by
        rw [List.map_cons, combineLoop]
        simp [executeAgent, hb]
      have hfresh' : ∀ b ∈ rest, ∀ p ∈ res, p.1 ≠ b.name :=
        fun b hbmem p hp => hfresh b (by simp [hbmem]) p hp
      obtain ⟨ih1, ih2, ih3, ih4⟩ := ih res (errs ++ [a.name ++ ": " ++ e]) hfresh' hnodup'
      refine ⟨?_, ?_, ?_, ?_⟩
      · rw [step, ih1]
        simp [List.filter_cons, behOk, hb]
      · rw [step, ih2]
        simp [List.filter_cons, behOk, behErr, hb]
      · intro p hp
        rw [step]
        exact ih3 p hp
      · intro b hbmem v' hv'
        rw [step]
        rcases List.mem_cons.mp hbmem with hbeq | hbmem
        · subst hbeq
          rw [hb] at hv'
          cases hv'
        · exact ih4 b hbmem v' hv'

theorem parallelRun_ok_success_iff {ω : Type} (agents : List (ParAgent ω))
    (timeout : Nat) (r : ParallelResult ω)
    (h : parallelRun agents timeout = .ok r) :
    r.success = true ↔ r.errors = [] := by
  unfold parallelRun at h
  split at h
  · injection h with h
    subst h
    simp [List.isEmpty_iff]
  · cases h

/-- C2, counterexample: a fan-out of two branches, one completing at time 1
and one still running at the overall timeout 10, does not return normally
with the completed branch's result — `asyncio.wait_for` raises TimeoutError
to the caller and the completed branch's result is discarded. -/
theorem c2_counterexample :
    parallelRun (ω := Nat)
        [⟨"fast", .ok 1, 1, 1⟩, ⟨"slow", .ok 2, 100, 1⟩] 10
      = .error "TimeoutError" := by
  rfl

/-- C2 (amended): `ParallelAgentExecutor.run` returns normally iff every
branch completes within the overall timeout; whenever any branch is still
running when the timeout fires, the call raises TimeoutError to the caller
and all branch results — including those of the branches that had already
completed — are discarded. -/
theorem c2_parallel_timeout {ω : Type} (agents : List (ParAgent ω))
    (timeout : Nat) :
    ((∃ r, parallelRun agents timeout = .ok r) ↔
      ∀ a ∈ agents, a.duration ≤ timeout) ∧
    ((∃ a ∈ agents, timeout < a.duration) →
      parallelRun agents timeout = .error "TimeoutError") := by
  constructor
  · constructor
    · rintro ⟨r, hr⟩ a ha
      unfold parallelRun at hr
      split at hr
      · rename_i hall
        have := List.all_eq_true.mp hall a ha
        simpa using this
      · cases hr
    · intro h
      refine ⟨⟨(combineOutcomes (agents.map executeAgent)).2.isEmpty,
        (combineOutcomes (agents.map executeAgent)).1,
        (combineOutcomes (agents.map executeAgent)).2,
        agents.length, (combineOutcomes (agents.map executeAgent)).1.length⟩, ?_⟩
      rw [parallelRun, if_pos (List.all_eq_true.mpr fun a ha => by
        simpa using h a ha)]
  · rintro ⟨a, ha, hlt⟩
    have hno : ¬ (agents.all (fun a => a.duration ≤ timeout) = true) := by
      intro hall
      have := List.all_eq_true.mp hall a ha
      simp at this
      omega
    rw [parallelRun, if_neg hno]

/-- C2 witness: a two-branch fan-out with durations 3 and 50 under an overall
timeout of 5 raises TimeoutError. -/
theorem c2_parallel_timeout_witness :
    parallelRun (ω := Nat) [⟨"a", .ok 1, 3, 1⟩, ⟨"b", .ok 2, 50, 1⟩] 5
      = .error "TimeoutError" :=
  (c2_parallel_timeout [⟨"a", .ok 1, 3, 1⟩, ⟨"b", .ok 2, 50, 1⟩] 5).2
    ⟨⟨"b", .ok 2, 50, 1⟩, by simp, by norm_num⟩

/-- C4: for a parallel execution (distinct agent names) completing within the
overall timeout in which exactly one agent function raises and the rest
return, the call returns success false, an error list of length one tagged
with the failing agent's name, and a results map holding exactly the other
agents' results keyed by name (size N−1); in general success is true exactly
when the error list is empty. -/
theorem c4_parallel_partial_failure {ω : Type}
    (pre post : List (ParAgent ω)) (bad : ParAgent ω) (msg : String)
    (timeout : Nat)
    (hbad : bad.behavior = .error msg)
    (hok : ∀ a ∈ pre ++ post, ∃ v, a.behavior = .ok v)
    (hdur : ∀ a ∈ pre ++ bad :: post, a.duration ≤ timeout)
    (hnodup : ((pre ++ bad :: post).map (fun a => a.name)).Nodup) :
    ∃ r, parallelRun (pre ++ bad :: post) timeout = .ok r ∧
      r.success = false ∧
      r.errors = [bad.name ++ ": " ++ msg] ∧
      r.results.map Prod.fst = (pre ++ post).map (fun a => a.name) ∧
      r.results.length = (pre ++ bad :: post).length - 1 ∧
      (∀ a ∈ pre ++ post, ∀ v, a.behavior = .ok v → (a.name, v) ∈ r.results) ∧
      (∀ (ags : List (ParAgent ω)) (t : Nat) (r' : ParallelResult ω),
        parallelRun ags t = .ok r' → (r'.success = true ↔ r'.errors = [])) := by
  have hfilter_ok : (pre ++ bad :: post).filter behOk = pre ++ post := by
    rw [List.filter_append, List.filter_cons]
    rw [List.filter_eq_self.mpr (fun a ha => by
        obtain ⟨v, hv⟩ := hok a (List.mem_append_left _ ha)
        simp [behOk, hv]),
      List.filter_eq_self.mpr (fun a ha => by
        obtain ⟨v, hv⟩ := hok a (List.mem_append_right _ ha)
        simp [behOk, hv])]
    simp [behOk, hbad]
  have hfilter_bad : (pre ++ bad :: post).filter (fun a => ! behOk a) = [bad] := by
    rw [List.filter_append, List.filter_cons]
    rw [List.filter_eq_nil.mpr (fun a ha => by
        obtain ⟨v, hv⟩ := hok a (List.mem_append_left _ ha)
        simp [behOk, hv]),
      List.filter_eq_nil.mpr (fun a ha => by
        obtain ⟨v, hv⟩ := hok a (List.mem_append_right _ ha)
        simp [behOk, hv])]
    simp [behOk, hbad]
  obtain ⟨h1, h2, _h3, h4⟩ := combineLoop_spec (pre ++ bad :: post) [] []
    (by intro a _ p hp; cases hp) hnodup
  rw [hfilter_ok] at h1
  rw [hfilter_bad] at h2
  simp only [List.map_nil, List.nil_append, List.map_cons] at h1 h2
  have hrun : parallelRun (pre ++ bad :: post) timeout
      = .ok ⟨(combineOutcomes ((pre ++ bad :: post).map executeAgent)).2.isEmpty,
          (combineOutcomes ((pre ++ bad :: post).map executeAgent)).1,
          (combineOutcomes ((pre ++ bad :: post).map executeAgent)).2,
          (pre ++ bad :: post).length,
          (combineOutcomes ((pre ++ bad :: post).map executeAgent)).1.length⟩ := by
    rw [parallelRun, if_pos (List.all_eq_true.mpr fun a ha => by
      simpa using hdur a ha)]
  refine ⟨_, hrun, ?_, ?_, ?_, ?_, ?_, ?_⟩
  · show (combineOutcomes ((pre ++ bad :: post).map executeAgent)).2.isEmpty = false
    unfold combineOutcomes
    rw [h2]
    simp [behErr, hbad]
  · show (combineOutcomes ((pre ++ bad :: post).map executeAgent)).2 = _
    unfold combineOutcomes
    rw [h2]
    simp [behErr, hbad]
  · show (combineOutcomes ((pre ++ bad :: post).map executeAgent)).1.map Prod.fst = _
    unfold combineOutcomes
    rw [h1]
  · show (combineOutcomes ((pre ++ bad :: post).map executeAgent)).1.length = _
    have := congrArg List.length h1
    unfold combineOutcomes
    simp only [List.length_map] at this ⊢
    rw [this]
    simp
  · intro a ha v hv
    exact h4 a (by
      rcases List.mem_append.mp ha with h | h
      · exact List.mem_append_left _ h
      · exact List.mem_append_right _ (List.mem_cons_of_mem _ h)) v hv
  · exact fun ags t r' h => parallelRun_ok_success_iff ags t r' h

/-- C4 witness: of three agents with distinct names, the middle one raising,
the call returns success false, the single tagged error and the two
successful results. -/
theorem c4_parallel_partial_failure_witness :
    ∃ r, parallelRun (ω := Nat)
        [⟨"a", .ok 1, 1, 1⟩, ⟨"b", .error "boom", 1, 1⟩, ⟨"c", .ok 3, 1, 1⟩] 10
        = .ok r ∧
      r.success = false ∧
      r.errors = ["b" ++ ": " ++ "boom"] ∧
      r.results.map Prod.fst
        = ([⟨"a", .ok 1, 1, 1⟩, ⟨"c", .ok 3, 1, 1⟩] : List (ParAgent Nat)).map
            (fun a => a.name) ∧
      r.results.length
        = ([⟨"a", .ok 1, 1, 1⟩, ⟨"b", .error "boom", 1, 1⟩,
            ⟨"c", .ok 3, 1, 1⟩] : List (ParAgent Nat)).length - 1 ∧
      (∀ a ∈ ([⟨"a", .ok 1, 1, 1⟩, ⟨"c", .ok 3, 1, 1⟩] : List (ParAgent Nat)),
        ∀ v, a.behavior = .ok v → (a.name, v) ∈ r.results) ∧
      (∀ (ags : List (ParAgent Nat)) (t : Nat) (r' : ParallelResult Nat),
        parallelRun ags t = .ok r' → (r'.success = true ↔ r'.errors = [])) := by
  have h := c4_parallel_partial_failure (ω := Nat)
    [⟨"a", .ok 1, 1, 1⟩] [⟨"c", .ok 3, 1, 1⟩] ⟨"b", .error "boom", 1, 1⟩ "boom" 10
    rfl
    (by rintro a ha
        simp only [List.cons_append, List.nil_append, List.mem_cons,
          List.not_mem_nil] at ha
        rcases ha with rfl | ha
        · exact ⟨1, rfl⟩
        · rcases ha with rfl | ha
          · exact ⟨3, rfl⟩
          · cases ha)
    (by intro a ha
        simp only [List.cons_append, List.nil_append, List.mem_cons] at ha
        rcases ha with rfl | rfl | rfl | h
        · exact le_of_lt (by norm_num)
        · exact le_of_lt (by norm_num)
        · exact le_of_lt (by norm_num)
        · cases h)
    (by simp)
  simpa using h

/-- C6, counterexample: the claim asserts capability errors are absorbed in
both the full pipeline and the quick variant, but `quick_analyze` wraps its
capability invocations in no try/except — with an image present and the
vision capability raising, the whole request fails with the capability's
error instead of returning a decision response. -/
theorem c6_counterexample :
    orchQuickAnalyze (ω := Nat) (δ := Nat) (η := Nat) (fun _ _ _ _ => 0) 0
        ⟨"u", none, true, false, .error "vision down", .ok 0⟩
      = .error "vision down" := by
  rfl

/-- C6 (amended): in the full pipeline `run`, a capability invocation that
raises is converted into the observation with analyzed False and the error
string, and a decision response with status success is still returned — the
error is never propagated; in the quick variant `quick_analyze` there is no
such absorption: a raising capability fails the whole request with that
error. -/
theorem c6_orchestrator_error_policy {ω δ η : Type}
    (decide : Option (ObsVal ω) → Option (ObsVal ω) → η → Option String → δ)
    (history : η) (ctx : OrchCtx ω) :
    ((orchRun decide history ctx).status = "success") ∧
    (∀ e, ctx.hasImage = true → ctx.visionBeh = .error e →
      (orchRun decide history ctx).obsVision = some (.failed e)) ∧
    (∀ e, ctx.hasText = true → ctx.contentBeh = .error e →
      (orchRun decide history ctx).obsContent = some (.failed e)) ∧
    (∀ e, ctx.hasImage = true → ctx.visionBeh = .error e →
      orchQuickAnalyze decide history ctx = .error e) ∧
    (∀ e, ctx.hasImage = false → ctx.hasText = true →
      ctx.contentBeh = .error e →
      orchQuickAnalyze decide history ctx = .error e) := by
  refine ⟨rfl, fun e hi hv => ?_, fun e ht hc => ?_, fun e hi hv => ?_,
    fun e hi ht hc => ?_⟩
  · simp [orchRun, hi, hv]
  · simp [orchRun, ht, hc]
  · simp only [orchQuickAnalyze, hi, hv, if_pos]
    rfl
  · simp only [orchQuickAnalyze, hi, ht, hc, Bool.false_eq_true, if_false, if_pos]
    rfl

/-- C6 witness: the amended absorption facts at a concrete context whose
vision capability raises. -/
theorem c6_orchestrator_error_policy_witness :
    (orchRun (ω := Nat) (δ := Nat) (η := Nat) (fun _ _ _ _ => 0) 0
        ⟨"u", none, true, false, .error "boom", .ok 0⟩).obsVision
      = some (.failed "boom") ∧
    orchQuickAnalyze (ω := Nat) (δ := Nat) (η := Nat) (fun _ _ _ _ => 0) 0
        ⟨"u", none, true, false, .error "boom", .ok 0⟩
      = .error "boom" :=
  ⟨(c6_orchestrator_error_policy (fun _ _ _ _ => 0) 0
      ⟨"u", none, true, false, .error "boom", .ok 0⟩).2.1 "boom" rfl rfl,
   (c6_orchestrator_error_policy (fun _ _ _ _ => 0) 0
      ⟨"u", none, true, false, .error "boom", .ok 0⟩).2.2.2.1 "boom" rfl rfl⟩

theorem foldl_best_spec (l : List (String × Nat × Int)) (m : String × Nat × Int) :
    (l.foldl (fun best x => if scoreLt best.2 x.2 then x else best) m = m ∨
      l.foldl (fun best x => if scoreLt best.2 x.2 then x else best) m ∈ l) ∧
    ¬ scoreLt (l.foldl (fun best x => if scoreLt best.2 x.2 then x else best) m).2 m.2 ∧
    (∀ x ∈ l,
      ¬ scoreLt (l.foldl (fun best x => if scoreLt best.2 x.2 then x else best) m).2 x.2) := by
  induction l generalizing m with
  | nil =>
    refine ⟨Or.inl rfl, ?_, by simp⟩
    simp only [List.foldl_nil, scoreLt]
    omega
  | cons y l ih =>
    rw [List.foldl_cons]
    by_cases h : scoreLt m.2 y.2
    · rw [if_pos h]
      obtain ⟨ih1, ih2, ih3⟩ := ih y
      refine ⟨?_, ?_, ?_⟩
      · rcases ih1 with h1 | h1
        · exact Or.inr (by rw [h1]; exact List.mem_cons_self y l)
        · exact Or.inr (List.mem_cons_of_mem y h1)
      · simp only [scoreLt] at h ih2 ⊢
        omega
      · intro x hx
        rcases List.mem_cons.mp hx with rfl | hx
        · exact ih2
        · exact ih3 x hx
    · rw [if_neg h]
      obtain ⟨ih1, ih2, ih3⟩ := ih m
      refine ⟨?_, ih2, ?_⟩
      · rcases ih1 with h1 | h1
        · exact Or.inl h1
        · exact Or.inr (List.mem_cons_of_mem y h1)
      · intro x hx
        rcases List.mem_cons.mp hx with rfl | hx
        · simp only [scoreLt] at h ih2 ⊢
          omega
        · exact ih3 x hx

theorem find?_name_of_nodup {γ ω : Type} (routes : List (Route γ ω))
    (r : Route γ ω) (hr : r ∈ routes)
    (hnodup : (routes.map (fun x => x.name)).Nodup) :
    routes.find? (fun x => x.name = r.name) = some r := by
  induction routes with
  | nil => cases hr
  | cons h t ih =>
    rcases List.mem_cons.mp hr with rfl | hrt
    · exact List.find?_cons_of_pos _ (by simp)
    · by_cases hname : h.name = r.name
      · exfalso
        have hmem : r.name ∈ t.map (fun x => x.name) :=
          List.mem_map_of_mem (fun x => x.name) hrt
        rw [← hname] at hmem
        exact (List.nodup_cons.mp hnodup).1 hmem
      · rw [List.find?_cons_of_neg _ (by simpa using hname)]
        exact ih hrt (List.nodup_cons.mp hnodup).2

/-- C8, counterexample: the claim asserts that when no candidate scores above
0 and no default handler is configured, routing returns the
no-matching-capability error — but a route registered under the literal name
"default" collides with the sentinel intent: with no keyword of it matching
and no default configured, its handler is invoked instead of the error being
returned. -/
theorem c8_counterexample :
    routeQuery (γ := Unit) (ω := String)
        (registerRoute [] "default" (fun _ _ => "handled") ["xyz"] 0)
        none "hello" ()
      = .result "handled" := by
  rfl

/-- C8 (amended): provided no route is registered under the reserved name
"default", routing scores each candidate as the count of its (lowercased)
keywords occurring as substrings of the lowercased query, excludes candidates
with score 0, and dispatches to a positive-scoring candidate whose
(score, priority) pair is lexicographically maximal among them; when no
candidate scores above 0 it invokes the configured default handler on the
query, or returns the no-matching-capability result when no default is
configured. -/
theorem c8_router_policy {γ ω : Type} (routes : List (Route γ ω))
    (defaultAgent : Option (String → γ → ω)) (query : String) (context : γ)
    (hnodefault : ∀ r ∈ routes, r.name ≠ "default")
    (hnodup : (routes.map (fun r => r.name)).Nodup) :
    ((∃ r ∈ routes, 0 < routeScore (strLower query) r) →
      ∃ r ∈ routes, 0 < routeScore (strLower query) r ∧
        routeQuery routes defaultAgent query context = .result (r.fn query context) ∧
        ∀ r₂ ∈ routes, 0 < routeScore (strLower query) r₂ →
          ¬ scoreLt (routeScore (strLower query) r, r.priority)
            (routeScore (strLower query) r₂, r₂.priority)) ∧
    ((∀ r ∈ routes, routeScore (strLower query) r = 0) →
      ∀ d, defaultAgent = some d →
        routeQuery routes defaultAgent query context = .result (d query context)) ∧
    ((∀ r ∈ routes, routeScore (strLower query) r = 0) → defaultAgent = none →
      routeQuery routes defaultAgent query context = .noMatch "default") := by
  have hcands :
      ∀ b ∈ routes.filterMap (fun r =>
          if 0 < routeScore (strLower query) r
          then some (r.name, routeScore (strLower query) r, r.priority) else none),
        ∃ r ∈ routes, 0 < routeScore (strLower query) r ∧
          b = (r.name, routeScore (strLower query) r, r.priority) := by
    intro b hb
    obtain ⟨r, hr, hsome⟩ := List.mem_filterMap.mp hb
    split at hsome
    · rename_i hpos
      refine ⟨r, hr, hpos, ?_⟩
      injection hsome with hsome
      exact hsome.symm
    · cases hsome
  refine ⟨?_, ?_, ?_⟩
  · rintro ⟨r₀, hr₀, hs₀⟩
    set cands := routes.filterMap (fun r =>
      if 0 < routeScore (strLower query) r
      then some (r.name, routeScore (strLower query) r, r.priority) else none)
      with hcandsdef
    have hne : cands ≠ [] := by
      intro hnil
      have : (r₀.name, routeScore (strLower query) r₀, r₀.priority) ∈ cands := by
        rw [hcandsdef]
        exact List.mem_filterMap.mpr ⟨r₀, hr₀, by rw [if_pos hs₀]⟩
      rw [hnil] at this
      cases this
    obtain ⟨m, rest, hcons⟩ := List.exists_cons_of_ne_nil hne
    have hpick : pickBest cands
        = some (rest.foldl (fun best x => if scoreLt best.2 x.2 then x else best) m) := by
      rw [hcons]; rfl
    set b := rest.foldl (fun best x => if scoreLt best.2 x.2 then x else best) m
      with hbdef
    obtain ⟨hb1, hb2, hb3⟩ := foldl_best_spec rest m
    have hbmem : b ∈ cands := by
      rw [hcons]
      rcases hb1 with h1 | h1
      · rw [← hbdef] at h1
        rw [h1]
        exact List.mem_cons_self m rest
      · exact List.mem_cons_of_mem m (by rw [hbdef]; exact h1)
    obtain ⟨r, hr, hscore, hbr⟩ := hcands b hbmem
    have hintent : detectIntent routes query = r.name := by
      simp only [detectIntent]
      rw [← hcandsdef, hpick]
      show b.1 = r.name
      rw [hbr]
    refine ⟨r, hr, hscore, ?_, ?_⟩
    · simp only [routeQuery, hintent]
      rw [if_neg (by simp [hnodefault r hr])]
      rw [find?_name_of_nodup routes r hr hnodup]
    · intro r₂ hr₂ hs₂
      have hmem₂ : (r₂.name, routeScore (strLower query) r₂, r₂.priority) ∈ cands := by
        rw [hcandsdef]
        exact List.mem_filterMap.mpr ⟨r₂, hr₂, by rw [if_pos hs₂]⟩
      have hle : ¬ scoreLt b.2 (routeScore (strLower query) r₂, r₂.priority) := by
        rw [hcons] at hmem₂
        rcases List.mem_cons.mp hmem₂ with heq | hmem₂
        · rw [show (routeScore (strLower query) r₂, r₂.priority) = m.2 from
            congrArg Prod.snd heq]
          exact hb2
        · exact hb3 _ hmem₂
      rw [hbr] at hle
      exact hle
  · intro hzero d hd
    have hnil : routes.filterMap (fun r =>
        if 0 < routeScore (strLower query) r
        then some (r.name, routeScore (strLower query) r, r.priority) else none)
        = [] := by
      rw [List.filterMap_eq_nil]
      intro r hr
      rw [if_neg (by rw [hzero r hr]; omega)]
    have hintent : detectIntent routes query = "default" := by
      simp only [detectIntent]
      rw [hnil]
      rfl
    simp only [routeQuery, hintent, hd]
    rw [if_pos (by simp)]
  · intro hzero hd
    have hnil : routes.filterMap (fun r =>
        if 0 < routeScore (strLower query) r
        then some (r.name, routeScore (strLower query) r, r.priority) else none)
        = [] := by
      rw [List.filterMap_eq_nil]
      intro r hr
      rw [if_neg (by rw [hzero r hr]; omega)]
    have hintent : detectIntent routes query = "default" := by
      simp only [detectIntent]
      rw [hnil]
      rfl
    simp only [routeQuery, hintent, hd]
    rw [if_neg (by simp)]
    rw [List.find?_eq_none.mpr (fun r hr => by simpa using hnodefault r hr)]

/-- C8 witness: the spec scenario — keywords grow/followers vs caption/post,
equal priority, query "How do I grow my followers?" dispatches to the growth
agent; a query matching nothing falls to the configured default. -/
theorem c8_router_policy_witness :
    ∃ r ∈ registerRoute (γ := Unit) (ω := String)
        (registerRoute [] "growth" (fun _ _ => "growth-answer") ["grow", "followers"] 0)
        "content" (fun _ _ => "content-answer") ["caption", "post"] 0,
      0 < routeScore (strLower "How do I grow my followers?") r ∧
      routeQuery
          (registerRoute
            (registerRoute [] "growth" (fun _ _ => "growth-answer") ["grow", "followers"] 0)
            "content" (fun _ _ => "content-answer") ["caption", "post"] 0)
          none "How do I grow my followers?" ()
        = .result (r.fn "How do I grow my followers?" ()) ∧
      ∀ r₂ ∈ registerRoute (γ := Unit) (ω := String)
          (registerRoute [] "growth" (fun _ _ => "growth-answer") ["grow", "followers"] 0)
          "content" (fun _ _ => "content-answer") ["caption", "post"] 0,
        0 < routeScore (strLower "How do I grow my followers?") r₂ →
        ¬ scoreLt (routeScore (strLower "How do I grow my followers?") r, r.priority)
          (routeScore (strLower "How do I grow my followers?") r₂, r₂.priority) := by
  apply (c8_router_policy
    (registerRoute (γ := Unit) (ω := String)
      (registerRoute [] "growth" (fun _ _ => "growth-answer") ["grow", "followers"] 0)
      "content" (fun _ _ => "content-answer") ["caption", "post"] 0)
    none "How do I grow my followers?" ()
    (by decide) (by decide)).1
  exact ⟨⟨"growth", List.map strLower ["grow", "followers"], 0,
    fun _ _ => "growth-answer"⟩, List.mem_cons_self _ _, by decide⟩

theorem isSubstr_iff_infix (n l : List Char) : isSubstr n l = true ↔ n <:+: l := by
  induction l with
  | nil =>
    simp [isSubstr, List.isEmpty_iff]
  | cons h t ih =>
    simp [isSubstr, ih, List.infix_cons_iff]

theorem foldl_max_spec (l : List (String × ℚ)) (m : String × ℚ) :
    (l.foldl (fun best x => if best.2 < x.2 then x else best) m = m ∨
      l.foldl (fun best x => if best.2 < x.2 then x else best) m ∈ l) ∧
    m.2 ≤ (l.foldl (fun best x => if best.2 < x.2 then x else best) m).2 ∧
    (∀ x ∈ l, x.2 ≤ (l.foldl (fun best x => if best.2 < x.2 then x else best) m).2) := by
  induction l generalizing m with
  | nil => exact ⟨Or.inl rfl, le_refl _, by simp⟩
  | cons y l ih =>
    rw [List.foldl_cons]
    by_cases h : m.2 < y.2
    · rw [if_pos h]
      obtain ⟨ih1, ih2, ih3⟩ := ih y
      refine ⟨?_, le_trans (le_of_lt h) ih2, ?_⟩
      · rcases ih1 with h1 | h1
        · exact Or.inr (by rw [h1]; exact List.mem_cons_self y l)
        · exact Or.inr (List.mem_cons_of_mem y h1)
      · intro x hx
        rcases List.mem_cons.mp hx with rfl | hx
        · exact ih2
        · exact ih3 x hx
    · rw [if_neg h]
      obtain ⟨ih1, ih2, ih3⟩ := ih m
      refine ⟨?_, ih2, ?_⟩
      · rcases ih1 with h1 | h1
        · exact Or.inl h1
        · exact Or.inr (List.mem_cons_of_mem y h1)
      · intro x hx
        rcases List.mem_cons.mp hx with rfl | hx
        · exact le_trans (le_of_not_lt h) ih2
        · exact ih3 x hx

/-- C5, counterexample: with history insta/insta/tw, two distinct platforms
occur but only one of them (insta) has at least 2 samples — the claim demands
that no platform-performance pattern be emitted, yet the code emits one. -/
theorem c5_counterexample :
    (platformSamples
        [⟨"insta", 10, "", false, false, 0, "monday"⟩, ⟨"insta", 10, "", false, false, 0, "monday"⟩,
          ⟨"tw", 1, "", false, false, 0, "monday"⟩] "tw").length = 1 ∧
    detectPlatformPatterns
        [⟨"insta", 10, "", false, false, 0, "monday"⟩, ⟨"insta", 10, "", false, false, 0, "monday"⟩,
          ⟨"tw", 1, "", false, false, 0, "monday"⟩]
      ≠ [] := by
  constructor
  · rfl
  · decide

/-- C5 (amended): a platform-performance pattern is emitted iff at least 2
distinct platforms occur in the history and at least one platform has at
least 2 samples; when emitted, its platform is a platform with at least 2
samples whose mean engagement is maximal among all platforms with at least 2
samples, and its performance multiplier is that mean divided by
max(global mean engagement, 1), rounded to 2 decimal places. -/
theorem c5_platform_pattern (data : List ContentItem) :
    (detectPlatformPatterns data ≠ [] ↔
      (2 ≤ (firstOccur (data.map (fun i => i.platform))).length ∧
        ∃ p ∈ firstOccur (data.map (fun i => i.platform)),
          2 ≤ (platformSamples data p).length)) ∧
    (∀ pat ∈ detectPlatformPatterns data,
      ∃ p ∈ firstOccur (data.map (fun i => i.platform)),
        2 ≤ (platformSamples data p).length ∧
        pat.platform = p ∧
        pat.patternType = "platform_performance" ∧
        pat.sampleSize = data.length ∧
        pat.multiplier
          = round2 (qmean (platformSamples data p)
              / max (qmean (data.map (fun i => i.engagement))) 1) ∧
        (∀ q ∈ firstOccur (data.map (fun i => i.platform)),
          2 ≤ (platformSamples data q).length →
          qmean (platformSamples data q) ≤ qmean (platformSamples data p))) := by
  have hbody : detectPlatformPatterns data =
      if (firstOccur (data.map (fun i => i.platform))).length < 2 then []
      else
        match maxBySnd ((firstOccur (data.map (fun i => i.platform))).filterMap
            (fun p => if 2 ≤ (platformSamples data p).length
              then some (p, qmean (platformSamples data p)) else none)) with
        | none => []
        | some best =>
          [⟨"platform_performance", best.1, min ((data.length : ℚ) / 15) 1,
            data.length,
            round2 (best.2 / max (qmean (data.map (fun i => i.engagement))) 1)⟩] :=
    rfl
  have hmemavgs : ∀ b ∈ (firstOccur (data.map (fun i => i.platform))).filterMap
      (fun p => if 2 ≤ (platformSamples data p).length
        then some (p, qmean (platformSamples data p)) else none),
      ∃ p ∈ firstOccur (data.map (fun i => i.platform)),
        2 ≤ (platformSamples data p).length ∧
        b = (p, qmean (platformSamples data p)) := by
    intro b hb
    obtain ⟨p, hp, hsome⟩ := List.mem_filterMap.mp hb
    split at hsome
    · rename_i hlen2
      refine ⟨p, hp, hlen2, ?_⟩
      injection hsome with hsome
      exact hsome.symm
    · cases hsome
  by_cases hlen : (firstOccur (data.map (fun i => i.platform))).length < 2
  · rw [hbody, if_pos hlen]
    constructor
    · constructor
      · intro h
        exact absurd rfl h
      · rintro ⟨h2, -⟩
        omega
    · intro pat hpat
      cases hpat
  · rw [hbody, if_neg hlen]
    cases havg : (firstOccur (data.map (fun i => i.platform))).filterMap
        (fun p => if 2 ≤ (platformSamples data p).length
          then some (p, qmean (platformSamples data p)) else none) with
    | nil =>
      simp only [maxBySnd]
      constructor
      · constructor
        · intro h
          exact absurd rfl h
        · rintro ⟨-, p, hp, hpn⟩
          have := List.filterMap_eq_nil_iff.mp havg p hp
          rw [if_pos hpn] at this
          cases this
      · intro pat hpat
        cases hpat
    | cons m rest =>
      simp only [maxBySnd]
      obtain ⟨hb1, hb2, hb3⟩ := foldl_max_spec rest m
      have hbmem : (rest.foldl (fun best x => if best.2 < x.2 then x else best) m)
          ∈ m :: rest := by
        rcases hb1 with h1 | h1
        · rw [h1]
          exact List.mem_cons_self m rest
        · exact List.mem_cons_of_mem m h1
      rw [← havg] at hbmem
      obtain ⟨p, hp, hplen, hbp⟩ := hmemavgs _ hbmem
      constructor
      · constructor
        · intro _
          exact ⟨by omega, p, hp, hplen⟩
        · intro _
          simp
      · intro pat hpat
        rcases List.mem_singleton.mp hpat with rfl
        refine ⟨p, hp, hplen, ?_, rfl, rfl, ?_, ?_⟩
        · show (rest.foldl (fun best x => if best.2 < x.2 then x else best) m).1 = p
          rw [hbp]
        · show round2 ((rest.foldl (fun best x => if best.2 < x.2 then x else best) m).2
              / max (qmean (data.map (fun i => i.engagement))) 1) = _
          rw [hbp]
        · intro q hq hqlen
          have hqmem : (q, qmean (platformSamples data q)) ∈ m :: rest := by
            rw [← havg]
            exact List.mem_filterMap.mpr ⟨q, hq, by rw [if_pos hqlen]⟩
          have hle : (q, qmean (platformSamples data q)).2
              ≤ (rest.foldl (fun best x => if best.2 < x.2 then x else best) m).2 := by
            rcases List.mem_cons.mp hqmem with heq | hqr
            · rw [show (qmean (platformSamples data q)) = m.2 from
                congrArg Prod.snd heq]
              exact hb2
            · exact hb3 _ hqr
          rw [hbp] at hle
          exact hle

/-- C5 witness: with two platforms of two samples each a pattern is
emitted. -/
theorem c5_platform_pattern_witness :
    detectPlatformPatterns
        [⟨"a", 5, "", false, false, 0, "monday"⟩, ⟨"a", 5, "", false, false, 0, "monday"⟩,
          ⟨"b", 3, "", false, false, 0, "monday"⟩, ⟨"b", 1, "", false, false, 0, "monday"⟩] ≠ [] :=
  (c5_platform_pattern _).1.mpr (by decide)

theorem foldl_firstOccur_mem {α : Type} [DecidableEq α] (l : List α) :
    ∀ (acc : List α) (x : α),
      (x ∈ l.foldl (fun acc p => if p ∈ acc then acc else acc ++ [p]) acc ↔
        x ∈ acc ∨ x ∈ l) := by
  induction l with
  | nil => intro acc x; simp
  | cons y l ih =>
    intro acc x
    rw [List.foldl_cons]
    by_cases hy : y ∈ acc
    · rw [if_pos hy, ih]
      simp only [List.mem_cons]
      constructor
      · rintro (h | h)
        · exact Or.inl h
        · exact Or.inr (Or.inr h)
      · rintro (h | rfl | h)
        · exact Or.inl h
        · exact Or.inl hy
        · exact Or.inr h
    · rw [if_neg hy, ih]
      simp only [List.mem_append, List.mem_singleton, List.mem_cons]
      tauto

theorem mem_firstOccur {α : Type} [DecidableEq α] (x : α) (l : List α) :
    x ∈ firstOccur l ↔ x ∈ l := by
  unfold firstOccur
  rw [foldl_firstOccur_mem]
  simp

theorem foldl_firstOccur_nodup {α : Type} [DecidableEq α] (l : List α) :
    ∀ acc : List α, acc.Nodup →
      (l.foldl (fun acc p => if p ∈ acc then acc else acc ++ [p]) acc).Nodup := by
  induction l with
  | nil => intro acc h; exact h
  | cons y l ih =>
    intro acc h
    rw [List.foldl_cons]
    by_cases hy : y ∈ acc
    · rw [if_pos hy]
      exact ih acc h
    · rw [if_neg hy]
      refine ih _ ?_
      rw [List.nodup_append]
      exact ⟨h, List.nodup_singleton y,
        fun a ha hay => hy ((List.mem_singleton.mp hay) ▸ ha)⟩

theorem nodup_firstOccur {α : Type} [DecidableEq α] (l : List α) :
    (firstOccur l).Nodup :=
  foldl_firstOccur_nodup l [] List.nodup_nil

theorem sum_filter_length_eq {ι α : Type} [DecidableEq α] (k : ι → α) :
    ∀ (hs : List α) (data : List ι), hs.Nodup → (∀ i ∈ data, k i ∈ hs) →
      (hs.map fun h => (data.filter fun i => k i = h).length).sum = data.length := by
  intro hs
  induction hs with
  | nil =>
    intro data _ hall
    cases data with
    | nil => rfl
    | cons x xs => exact absurd (hall x (List.mem_cons_self x xs)) (List.not_mem_nil _)
  | cons h hs ih =>
    intro data hnodup hall
    rw [List.map_cons, List.sum_cons]
    have hnotin : h ∉ hs := (List.nodup_cons.mp hnodup).1
    have hmap : ∀ h' ∈ hs,
        ((data.filter fun i => ¬ k i = h).filter fun i => k i = h').length
          = (data.filter fun i => k i = h').length := by
      intro h' hh'
      rw [List.filter_filter]
      apply congrArg List.length
      apply List.filter_congr
      intro i _
      by_cases hk : k i = h'
      · have hne : ¬ h' = h := fun e => hnotin (e ▸ hh')
        simp [hk, hne]
      · simp [hk]
    have hrest :
        (hs.map fun h' => (data.filter fun i => k i = h').length).sum
          = (data.filter fun i => ¬ k i = h).length := by
      rw [List.map_congr_left (fun h' hh' => (hmap h' hh').symm)]
      apply ih
      · exact (List.nodup_cons.mp hnodup).2
      · intro i hi
        have hmem := List.mem_filter.mp hi
        have hne : ¬ k i = h := by simpa using hmem.2
        rcases List.mem_cons.mp (hall i hmem.1) with he | hin
        · exact absurd he hne
        · exact hin
    rw [hrest,
      show (data.filter fun i => ¬ k i = h)
          = data.filter (fun i => ! decide (k i = h)) from
        List.filter_congr (fun i _ => by simp)]
    exact (List.length_eq_length_filter_add (fun i => decide (k i = h))).symm

/-- The sum of the sizes of a defaultdict's groups is the number of grouped
items: in the posting-time detector, `sum(len(v) for v in
hour_performance.values())` equals `len(content_data)`. -/
theorem sum_group_lengths {ι α : Type} [DecidableEq α] (k : ι → α)
    (data : List ι) :
    ((firstOccur (data.map k)).map
        fun h => (data.filter fun i => k i = h).length).sum = data.length :=
  sum_filter_length_eq k (firstOccur (data.map k)) data (nodup_firstOccur _)
    (fun i hi => (mem_firstOccur _ _).mpr (List.mem_map_of_mem k hi))

/-- Fidelity of the velocity detector's square-root-free gate: it holds
exactly when the real square root of the sample variance exceeds
`avg * 0.5`. -/
theorem stdevGtHalfAvg_iff_sqrt (var avg : ℚ) :
    (stdevGtHalfAvg var avg = true ↔
      ((avg * (1/2) : ℚ) : ℝ) < Real.sqrt (var : ℝ)) := by
  unfold stdevGtHalfAvg
  by_cases h : (0 : ℚ) ≤ avg * (1/2)
  · rw [if_pos h, decide_eq_true_eq,
      Real.lt_sqrt (by exact_mod_cast h)]
    exact_mod_cast Iff.rfl
  · rw [if_neg h]
    have hneg : ((avg * (1/2) : ℚ) : ℝ) < 0 := by exact_mod_cast not_le.mp h
    constructor
    · intro _
      exact lt_of_lt_of_le hneg (Real.sqrt_nonneg _)
    · intro _
      rfl

/-- C7: every emitted pattern of every detector has confidence
`min(sampleSize / c, 1.0)` for that detector's fixed normalizing constant c —
content_type c=10, caption_structure c=8, platform_performance c=15,
posting_time c=20, posting_day c=15, engagement_velocity c=10, all between 8
and 20 — and for a fixed constant the confidence is monotonically
non-decreasing in the sample size. -/
theorem c7_pattern_confidence (data : List ContentItem) :
    (∀ p ∈ detectContentTypePatterns data,
      p.confidence = min ((p.sampleSize : ℚ) / 10) 1) ∧
    (∀ p ∈ detectCaptionPatterns data,
      p.confidence = min ((p.sampleSize : ℚ) / 8) 1) ∧
    (∀ p ∈ detectPlatformPatterns data,
      p.confidence = min ((p.sampleSize : ℚ) / 15) 1) ∧
    (∀ p ∈ detectPostingTimePatterns data,
      (p.patternType = "posting_time" ∨ p.patternType = "posting_day") ∧
      (p.patternType = "posting_time" →
        p.confidence = min ((p.sampleSize : ℚ) / 20) 1) ∧
      (p.patternType = "posting_day" →
        p.confidence = min ((p.sampleSize : ℚ) / 15) 1)) ∧
    (∀ mult : ℚ, ∀ p ∈ detectVelocityPatterns data mult,
      p.confidence = min ((p.sampleSize : ℚ) / 10) 1) ∧
    (∀ c ∈ [(10 : ℚ), 8, 15, 20], 8 ≤ c ∧ c ≤ 20) ∧
    (∀ (c : ℚ) (n₁ n₂ : Nat), 0 < c → n₁ ≤ n₂ →
      min ((n₁ : ℚ) / c) 1 ≤ min ((n₂ : ℚ) / c) 1) := by
  refine ⟨?_, ?_, ?_, ?_, ?_, by decide, ?_⟩
  · intro p hp
    cases data with
    | nil => cases hp
    | cons d ds =>
      simp only [detectContentTypePatterns] at hp
      obtain ⟨g, hg, hsome⟩ := List.mem_filterMap.mp hp
      split at hsome
      · split at hsome
        · injection hsome with hsome
          rw [← hsome]
        · cases hsome
      · cases hsome
  · intro p hp
    cases data with
    | nil => cases hp
    | cons d ds =>
      simp only [detectCaptionPatterns] at hp
      obtain ⟨g, hg, hsome⟩ := List.mem_filterMap.mp hp
      split at hsome
      · split at hsome
        · injection hsome with hsome
          rw [← hsome]
        · cases hsome
      · cases hsome
  · intro p hp
    simp only [detectPlatformPatterns] at hp
    split at hp
    · cases hp
    · split at hp
      · cases hp
      · rcases List.mem_singleton.mp hp with rfl
        rfl
  · intro p hp
    simp only [detectPostingTimePatterns] at hp
    rcases List.mem_append.mp hp with hp | hp
    · split at hp
      · cases hp
      · split at hp
        · rcases List.mem_singleton.mp hp with rfl
          refine ⟨Or.inl rfl, fun _ => ?_, fun hc => ?_⟩
          · show min ((((firstOccur (data.map fun i => i.hour)).map
                (fun h => (data.filter fun i => i.hour = h).length)).sum : ℚ) / 20) 1
              = min ((data.length : ℚ) / 20) 1
            rw [sum_group_lengths (fun i => i.hour) data]
          · have hc' : ("posting_time" : String) = "posting_day" := hc
            exact absurd hc' (by decide)
        · cases hp
    · split at hp
      · cases hp
      · split at hp
        · rcases List.mem_singleton.mp hp with rfl
          refine ⟨Or.inr rfl, fun hc => ?_, fun _ => ?_⟩
          · have hc' : ("posting_day" : String) = "posting_time" := hc
            exact absurd hc' (by decide)
          · show min ((((firstOccur (data.map fun i => i.day)).map
                (fun d => (data.filter fun i => i.day = d).length)).sum : ℚ) / 15) 1
              = min ((data.length : ℚ) / 15) 1
            rw [sum_group_lengths (fun i => i.day) data]
        · cases hp
  · intro mult p hp
    simp only [detectVelocityPatterns] at hp
    split at hp
    · cases hp
    · split at hp
      · cases hp
      · split at hp
        · split at hp
          · rcases List.mem_singleton.mp hp with rfl
            rfl
          · cases hp
        · split at hp
          · rcases List.mem_singleton.mp hp with rfl
            rfl
          · cases hp
  · intro c n₁ n₂ hc hn
    refine min_le_min ?_ le_rfl
    exact (div_le_div_right hc).mpr (by exact_mod_cast hn)

/-- C7 witness: the content-type detector on a concrete 3-item history emits
one pattern (2 samples of with_visual at 2× the rest) whose confidence is
min(2/10, 1) = 1/5, and the posting-time detector on a concrete 4-item
history (hours 20, 20, 8, 8) emits one pattern whose confidence is
min(4/20, 1) = 1/5. -/
theorem c7_pattern_confidence_witness :
    ((⟨"content_type", "all", 1/5, 2, 143/100⟩ : Pattern)
        ∈ detectContentTypePatterns
          [⟨"ig", 10, "", true, false, 0, "monday"⟩, ⟨"ig", 10, "", true, false, 0, "monday"⟩,
            ⟨"ig", 1, "", false, false, 0, "monday"⟩] ∧
      (⟨"content_type", "all", 1/5, 2, 143/100⟩ : Pattern).confidence
        = min (((⟨"content_type", "all", 1/5, 2, 143/100⟩ : Pattern).sampleSize : ℚ)
            / 10) 1) ∧
    ((⟨"posting_time", "all", 1/5, 4, 91/50⟩ : Pattern)
        ∈ detectPostingTimePatterns
          [⟨"x", 10, "", false, false, 20, "monday"⟩,
            ⟨"x", 10, "", false, false, 20, "monday"⟩,
            ⟨"x", 1, "", false, false, 8, "monday"⟩,
            ⟨"x", 1, "", false, false, 8, "monday"⟩] ∧
      (⟨"posting_time", "all", 1/5, 4, 91/50⟩ : Pattern).confidence
        = min (((⟨"posting_time", "all", 1/5, 4, 91/50⟩ : Pattern).sampleSize : ℚ)
            / 20) 1) :=
  have hdet : detectContentTypePatterns
      [⟨"ig", 10, "", true, false, 0, "monday"⟩, ⟨"ig", 10, "", true, false, 0, "monday"⟩,
        ⟨"ig", 1, "", false, false, 0, "monday"⟩]
      = [⟨"content_type", "all", 1/5, 2, 143/100⟩] := by
    have h1 : ("text_only" : String) ≠ "with_visual" := by decide
    have h2 : ("with_visual" : String) ≠ "text_only" := by decide
    norm_num [detectContentTypePatterns, firstOccur, contentTypeOf, qmean, round2,
      round_eq, List.filterMap_cons, List.filter_cons, h1, h2]
  have hmem : (⟨"content_type", "all", 1/5, 2, 143/100⟩ : Pattern)
      ∈ detectContentTypePatterns
        [⟨"ig", 10, "", true, false, 0, "monday"⟩, ⟨"ig", 10, "", true, false, 0, "monday"⟩,
          ⟨"ig", 1, "", false, false, 0, "monday"⟩] := by
    rw [hdet]
    exact List.mem_singleton.mpr rfl
  have hdetT : detectPostingTimePatterns
      [⟨"x", 10, "", false, false, 20, "monday"⟩,
        ⟨"x", 10, "", false, false, 20, "monday"⟩,
        ⟨"x", 1, "", false, false, 8, "monday"⟩,
        ⟨"x", 1, "", false, false, 8, "monday"⟩]
      = [⟨"posting_time", "all", 1/5, 4, 91/50⟩] := by
    norm_num [detectPostingTimePatterns, firstOccur, qmean, round2, round_eq,
      maxBySnd, List.filterMap_cons, List.filter_cons]
  have hmemT : (⟨"posting_time", "all", 1/5, 4, 91/50⟩ : Pattern)
      ∈ detectPostingTimePatterns
        [⟨"x", 10, "", false, false, 20, "monday"⟩,
          ⟨"x", 10, "", false, false, 20, "monday"⟩,
          ⟨"x", 1, "", false, false, 8, "monday"⟩,
          ⟨"x", 1, "", false, false, 8, "monday"⟩] := by
    rw [hdetT]
    exact List.mem_singleton.mpr rfl
  ⟨⟨hmem,
    (c7_pattern_confidence
      [⟨"ig", 10, "", true, false, 0, "monday"⟩, ⟨"ig", 10, "", true, false, 0, "monday"⟩,
        ⟨"ig", 1, "", false, false, 0, "monday"⟩]).1 _ hmem⟩,
   ⟨hmemT,
    ((c7_pattern_confidence
      [⟨"x", 10, "", false, false, 20, "monday"⟩,
        ⟨"x", 10, "", false, false, 20, "monday"⟩,
        ⟨"x", 1, "", false, false, 8, "monday"⟩,
        ⟨"x", 1, "", false, false, 8, "monday"⟩]).2.2.2.1 _ hmemT).2.1 rfl⟩⟩

end CreatorOS
